import Mathlib

/-!
Verification of the KajarEngine archive decoder (`src/utils/decode.py`).

Byte buffers are modelled as `List Nat` (each element a byte value), Python
integers as `Nat` with explicit `% 2^32` / `&&& 0xFFFFFFFF` where the source
masks, and fallible operations (`struct.unpack`, `bytes.decode`,
`zlib.decompress`) as `Except DecodeError`.  The external zlib inflate routine
is an abstract parameter of the directory decompressor.
-/

/-- Error taxonomy of the design: an out-of-range offset, a rejected
compressed stream, or structurally invalid input (short buffer, bad record,
non-UTF-8 path bytes).  The Python source signals the last kind via
`struct.error` / `UnicodeDecodeError` and the second via `zlib.error`. -/
inductive DecodeError where
  | boundsError
  | decompressionError
  | formatError
deriving DecidableEq

deriving instance DecidableEq for Except

/-- Loop body of `decode` in `src/utils/decode.py`: for each byte, advance
`seed = (seed * 0x41C64E6D + 12345) & 0xFFFFFFFF` and emit
`b ^ (seed >> 24)`. -/
def decodeLoop : Nat → List Nat → List Nat
  | _, [] => []
  | seed, b :: rest =>
    let seed2 := (seed * 0x41C64E6D + 12345) &&& 0xFFFFFFFF
    (b ^^^ (seed2 >>> 24)) :: decodeLoop seed2 rest

/-- `decode(buf, offset)` from `src/utils/decode.py`: the keystream unmasker,
seeded with `0x19000000 + offset` (the Python source applies no mask to the
initial value; the first loop step does). -/
def decode (buf : List Nat) (offset : Nat) : List Nat :=
  decodeLoop (0x19000000 + offset) buf

/-- Loop of the keystream unmasker as the spec words it (§4.1): advance the
32-bit state by the LCG, derive the mask byte as the top 8 bits of the
updated seed truncated to one byte, output the XOR. -/
def unmaskLoop_spec : Nat → List Nat → List Nat
  | _, [] => []
  | seed, b :: rest =>
    let seed2 := (seed * 0x41C64E6D + 12345) % 2 ^ 32
    let maskByte := (seed2 >>> 24) % 256
    (b ^^^ maskByte) :: unmaskLoop_spec seed2 rest

/-- The keystream unmasker written from the spec's words (§4.1), for
comparison with the source-derived `decode`: state initialized to
`(0x19000000 + base_offset) mod 2^32`, then `unmaskLoop_spec`. -/
def unmask_spec (buffer : List Nat) (base_offset : Nat) : List Nat :=
  unmaskLoop_spec ((0x19000000 + base_offset) % 2 ^ 32) buffer

/-- The archive header (`Header` namedtuple in `src/utils/decode.py`):
`signature`, `size`, `offset`, `compressed_size`, unpacked from the unmasked
first 16 bytes as four little-endian unsigned 32-bit integers
(`struct.unpack('<IIII', buf2)`). -/
structure Header where
  signature : Nat
  size : Nat
  offset : Nat
  compressed_size : Nat
deriving DecidableEq

/-- A directory entry (`Entry` namedtuple in `src/utils/decode.py`):
`path_offset`, `offset`, `size`, unpacked as `'<III'`. -/
structure Entry where
  path_offset : Nat
  offset : Nat
  size : Nat
deriving DecidableEq

/-- Little-endian unsigned 32-bit read at index `i` of a byte list, the
meaning of one `I` field in `struct.unpack('<...')`; out-of-range bytes
default to 0 (call sites guard the length as `struct` does). -/
def leU32 (l : List Nat) (i : Nat) : Nat :=
  l.getD i 0 + 256 * l.getD (i + 1) 0 + 65536 * l.getD (i + 2) 0 +
    16777216 * l.getD (i + 3) 0

/-- Little-endian 4-byte encoding of an unsigned 32-bit value, the inverse
packing used to build synthetic headers. -/
def toLE4 (n : Nat) : List Nat :=
  [n % 256, n / 256 % 256, n / 65536 % 256, n / 16777216 % 256]

/-- Header decoding as performed in `src/utils/decode.py`:
`buf2 = decode(buf[0:16])` (base offset defaulting to 0) followed by
`Header(*struct.unpack('<IIII', buf2))`; `struct.unpack` demands exactly 16
bytes, else `struct.error` (a `FormatError`). -/
def decode_header (buf : List Nat) : Except DecodeError Header :=
  let buf2 := decode (buf.take 16) 0
  if buf2.length = 16 then
    Except.ok ⟨leU32 buf2 0, leU32 buf2 4, leU32 buf2 8, leU32 buf2 12⟩
  else Except.error DecodeError.formatError

/-- The directory decompression step of `src/utils/decode.py`:
`buf2 = decode(buf[header.offset:], header.offset)` then
`dcmp = zlib.decompress(buf2[4:], 31)`.  The external zlib inflate routine
(window bits 31) is the abstract parameter `inflate`. -/
def decompress_directory (inflate : List Nat → Except DecodeError (List Nat))
    (buf : List Nat) (header : Header) : Except DecodeError (List Nat) :=
  let buf2 := decode (buf.drop header.offset) header.offset
  inflate (buf2.drop 4)

/-- Directory decompression written from the spec's words (§4.3), for
comparison with the source-derived definition: take the archive suffix
starting at `header.offset` through end-of-buffer, unmask it with
`base_offset = header.offset` (the absolute file offset), skip the first 4
bytes of the unmasked result, feed the remainder to the decompressor. -/
def decompress_directory_fromSpec (inflate : List Nat → Except DecodeError (List Nat))
    (buf : List Nat) (header : Header) : Except DecodeError (List Nat) :=
  let suffix := buf.drop header.offset
  let unmasked := unmask_spec suffix header.offset
  inflate (unmasked.drop 4)

/-- Model of `zlib.decompress(·, 31)` restricted to what the bounds claims
exercise: a stream shorter than the 2-byte gzip magic is rejected as
truncated, the rejection §4.3/§7 classify as `DecompressionError`.  (Real
inflation of well-formed streams is irrelevant to the bounds claims and is
modelled as accepting the input unchanged.) -/
def inflateTruncModel (data : List Nat) : Except DecodeError (List Nat) :=
  if data.length < 2 then Except.error DecodeError.decompressionError
  else Except.ok data

/-- The entry-reading loop of `src/utils/decode.py`
(`for i in range(0, nentries*12, 12): entries.append(Entry(*struct.unpack_from('<III', dcmp, i)))`):
`n` entries remain, the next is unpacked at byte offset `i` of `body`;
`struct.unpack_from` demands `i + 12 ≤ len(body)`, else `struct.error`
(a `FormatError`). -/
def readEntries (body : List Nat) : Nat → Nat → Except DecodeError (List Entry)
  | 0, _ => Except.ok []
  | n + 1, i =>
    if i + 12 ≤ body.length then
      match readEntries body n (i + 12) with
      | Except.error err => Except.error err
      | Except.ok rest =>
        Except.ok (⟨leU32 body i, leU32 body (i + 4), leU32 body (i + 8)⟩ :: rest)
    else Except.error DecodeError.formatError

/-- One path resolution of `src/utils/decode.py`
(`struct.unpack_from('s', dcmp, e.path_offset)[0].decode('utf-8')`): format
`'s'` reads exactly one byte at `path_offset` (demanding it be in range,
else `struct.error`), and a lone byte is valid UTF-8 exactly when it is
below 0x80, else `UnicodeDecodeError`; both surface as `FormatError`. -/
def readPath (body : List Nat) (e : Entry) : Except DecodeError String :=
  if e.path_offset + 1 ≤ body.length then
    let b := body.getD e.path_offset 0
    if b < 128 then Except.ok (String.singleton (Char.ofNat b))
    else Except.error DecodeError.formatError
  else Except.error DecodeError.formatError

/-- The path loop of `src/utils/decode.py`
(`for e in entries: paths.append(...)`): resolve each entry's path in entry
order, stopping at the first failure. -/
def readPaths (body : List Nat) : List Entry → Except DecodeError (List String)
  | [] => Except.ok []
  | e :: rest =>
    match readPath body e with
    | Except.error err => Except.error err
    | Except.ok s =>
      match readPaths body rest with
      | Except.error err => Except.error err
      | Except.ok ss => Except.ok (s :: ss)

/-- The directory parser of `src/utils/decode.py`: read `nentries` from the
first 4 bytes (`struct.unpack_from('<I', dcmp, 0)`, demanding at least 4
bytes), set `body = dcmp[4:]`, read the entry records, then resolve the
paths. -/
def parse_directory (dcmp : List Nat) : Except DecodeError (List String) :=
  if 4 ≤ dcmp.length then
    match readEntries (dcmp.drop 4) (leU32 dcmp 0) 0 with
    | Except.error err => Except.error err
    | Except.ok entries => readPaths (dcmp.drop 4) entries
  else Except.error DecodeError.formatError

lemma and_mask32 (n : Nat) : n &&& 0xFFFFFFFF = n % 2 ^ 32 := by
  have h : (0xFFFFFFFF : Nat) = 2 ^ 32 - 1 := by norm_num
  rw [h, Nat.and_pow_two_sub_one_eq_mod]

lemma mod32_shift_lt (n : Nat) : (n % 2 ^ 32) >>> 24 < 256 := by
  rw [Nat.shiftRight_eq_div_pow]
  have h : n % 2 ^ 32 < 2 ^ 32 := Nat.mod_lt _ (by norm_num)
  omega

lemma decodeLoop_eq_specLoop (buf : List Nat) :
    ∀ s t : Nat, s % 2 ^ 32 = t % 2 ^ 32 → decodeLoop s buf = unmaskLoop_spec t buf := by
  induction buf with
  | nil => intro s t _; rfl
  | cons b rest ih =>
    intro s t hst
    have hmod : s ≡ t [MOD 2 ^ 32] := hst
    have hstep : (s * 0x41C64E6D + 12345) % 2 ^ 32 = (t * 0x41C64E6D + 12345) % 2 ^ 32 :=
      (hmod.mul_right 0x41C64E6D).add_right 12345
    simp only [decodeLoop, unmaskLoop_spec, and_mask32, hstep]
    have hlt : ((t * 0x41C64E6D + 12345) % 2 ^ 32) >>> 24 < 256 := mod32_shift_lt _
    rw [Nat.mod_eq_of_lt hlt]
    exact congrArg _ (ih _ _ rfl)

lemma decodeLoop_length (buf : List Nat) : ∀ s : Nat, (decodeLoop s buf).length = buf.length := by
  induction buf with
  | nil => intro s; rfl
  | cons b rest ih => intro s; simp [decodeLoop, ih]

lemma decodeLoop_involution (buf : List Nat) :
    ∀ s : Nat, decodeLoop s (decodeLoop s buf) = buf := by
  induction buf with
  | nil => intro s; rfl
  | cons b rest ih =>
    intro s
    simp only [decodeLoop]
    exact congrArg₂ _ (Nat.xor_cancel_right _ b) (ih _)

/-- C1: `decode` (the source keystream unmasker) agrees with the spec's
description of the unmasker — 32-bit LCG state seeded from
`(0x19000000 + base_offset) mod 2^32`, advanced once per byte, mask byte the
top 8 bits of the updated seed, output byte the XOR — and it returns a buffer
of the same length as its input.  Purity is inherent to the embedding: the
value depends only on `(buf, offset)`. -/
theorem decode_matches_spec (buf : List Nat) (offset : Nat) :
    decode buf offset = unmask_spec buf offset ∧
      (decode buf offset).length = buf.length := by
  constructor
  · exact decodeLoop_eq_specLoop buf (0x19000000 + offset)
      ((0x19000000 + offset) % 2 ^ 32) (by omega)
  · exact decodeLoop_length buf _

/-- C2: applying the keystream unmasker twice with the same base offset
restores the original buffer, for every buffer (all lengths, including 0
and 1) and every offset. -/
theorem decode_involution (buf : List Nat) (offset : Nat) :
    decode (decode buf offset) offset = buf :=
  decodeLoop_involution buf _

/-- C5: a synthetic 16-byte header with known 32-bit field values, masked
with base offset 0 by the documented LCG keystream, is recovered exactly by
the header decoder, field for field. -/
theorem decode_header_roundtrip (sig sz off csz : Nat)
    (h1 : sig < 2 ^ 32) (h2 : sz < 2 ^ 32) (h3 : off < 2 ^ 32) (h4 : csz < 2 ^ 32) :
    decode_header (decode (toLE4 sig ++ (toLE4 sz ++ (toLE4 off ++ toLE4 csz))) 0) =
      Except.ok ⟨sig, sz, off, csz⟩ := by
  set raw : List Nat := toLE4 sig ++ (toLE4 sz ++ (toLE4 off ++ toLE4 csz)) with hdef
  have hraw : raw.length = 16 := by simp [hdef, toLE4]
  have hmlen : (decode raw 0).length = 16 := by
    unfold decode; rw [decodeLoop_length]; exact hraw
  have htake : (decode raw 0).take 16 = decode raw 0 := by
    rw [← hmlen]; exact List.take_length _
  have hinv : decode (decode raw 0) 0 = raw := decodeLoop_involution raw _
  have f0 : leU32 raw 0 = sig := by
    show sig % 256 + 256 * (sig / 256 % 256) + 65536 * (sig / 65536 % 256) +
      16777216 * (sig / 16777216 % 256) = sig
    omega
  have f4 : leU32 raw 4 = sz := by
    show sz % 256 + 256 * (sz / 256 % 256) + 65536 * (sz / 65536 % 256) +
      16777216 * (sz / 16777216 % 256) = sz
    omega
  have f8 : leU32 raw 8 = off := by
    show off % 256 + 256 * (off / 256 % 256) + 65536 * (off / 65536 % 256) +
      16777216 * (off / 16777216 % 256) = off
    omega
  have f12 : leU32 raw 12 = csz := by
    show csz % 256 + 256 * (csz / 256 % 256) + 65536 * (csz / 65536 % 256) +
      16777216 * (csz / 16777216 % 256) = csz
    omega
  unfold decode_header
  rw [htake, hinv, if_pos hraw, f0, f4, f8, f12]

/-- C5 witness: the round trip at the concrete header
`(signature, size, offset, compressed_size) = (0x4B4A5221, 4096, 64, 100)`. -/
theorem decode_header_roundtrip_witness :
    (0x4B4A5221 : Nat) < 2 ^ 32 ∧ (4096 : Nat) < 2 ^ 32 ∧ (64 : Nat) < 2 ^ 32 ∧
      (100 : Nat) < 2 ^ 32 ∧
      decode_header
          (decode (toLE4 0x4B4A5221 ++ (toLE4 4096 ++ (toLE4 64 ++ toLE4 100))) 0) =
        Except.ok ⟨0x4B4A5221, 4096, 64, 100⟩ :=
  ⟨by norm_num, by norm_num, by norm_num, by norm_num,
    decode_header_roundtrip 0x4B4A5221 4096 64 100 (by norm_num) (by norm_num)
      (by norm_num) (by norm_num)⟩

/-- C6: for any decompressor and any in-bounds `header.offset`, the code's
decompression step agrees with the spec's description — unmask the suffix
from `header.offset` with base offset `header.offset` (not 0), drop 4 bytes,
inflate the remainder. -/
theorem decompress_directory_matches_spec
    (inflate : List Nat → Except DecodeError (List Nat)) (buf : List Nat)
    (header : Header) (hoff : header.offset ≤ buf.length) :
    decompress_directory inflate buf header =
      decompress_directory_fromSpec inflate buf header := by
  unfold decompress_directory decompress_directory_fromSpec
  exact congrArg _ (congrArg _
    (decodeLoop_eq_specLoop _ (0x19000000 + header.offset)
      ((0x19000000 + header.offset) % 2 ^ 32) (by omega)))

/-- C6 witness: the agreement at a concrete archive, header and
decompressor. -/
theorem decompress_directory_matches_spec_witness :
    Header.offset ⟨0, 5, 0, 0⟩ ≤ List.length [1, 2, 3, 4, 5] ∧
      decompress_directory Except.ok [1, 2, 3, 4, 5] ⟨0, 5, 0, 0⟩ =
        decompress_directory_fromSpec Except.ok [1, 2, 3, 4, 5] ⟨0, 5, 0, 0⟩ :=
  ⟨by decide,
    decompress_directory_matches_spec Except.ok [1, 2, 3, 4, 5] ⟨0, 5, 0, 0⟩ (by decide)⟩

/-- C7 (counterexample): with `header.offset` equal to the archive length,
the decompression step fails with the decompressor's rejection of the empty
stream — a `DecompressionError` — and not with the `BoundsError` the claim
names. -/
theorem decompress_directory_boundsError_counterexample :
    decompress_directory inflateTruncModel [1, 2, 3, 4] ⟨0, 4, 4, 0⟩ =
        Except.error DecodeError.decompressionError ∧
      decompress_directory inflateTruncModel [1, 2, 3, 4] ⟨0, 4, 4, 0⟩ ≠
        Except.error DecodeError.boundsError :=
  ⟨rfl, fun h => DecodeError.noConfusion (Except.error.inj h)⟩

/-- C7 (amended): when `header.offset` is at or beyond the archive length,
Python slicing clamps the suffix to empty — no out-of-range read occurs —
and the failure surfaced is the decompressor rejecting the truncated empty
stream (`DecompressionError`), for every decompressor that does reject it. -/
theorem decompress_directory_out_of_range
    (inflate : List Nat → Except DecodeError (List Nat)) (buf : List Nat)
    (header : Header) (hoff : buf.length ≤ header.offset)
    (hinf : inflate [] = Except.error DecodeError.decompressionError) :
    decompress_directory inflate buf header =
      Except.error DecodeError.decompressionError := by
  unfold decompress_directory
  rw [List.drop_eq_nil_of_le hoff]
  exact hinf

/-- C7 witness: the amended statement at a concrete archive of length 3 and
a header whose directory offset is 7. -/
theorem decompress_directory_out_of_range_witness :
    List.length [1, 2, 3] ≤ Header.offset ⟨0, 3, 7, 0⟩ ∧
      inflateTruncModel [] = Except.error DecodeError.decompressionError ∧
      decompress_directory inflateTruncModel [1, 2, 3] ⟨0, 3, 7, 0⟩ =
        Except.error DecodeError.decompressionError :=
  ⟨by decide, rfl,
    decompress_directory_out_of_range inflateTruncModel [1, 2, 3] ⟨0, 3, 7, 0⟩
      (by decide) rfl⟩

/-- C3 (code at the failing input): on a directory with one entry whose
path bytes are `"ab\x00"` (bytes 97, 98, 0 at `body[12]`), the source
returns the single-character path "a" — one byte read by format `'s'` —
rather than the null-terminated string "ab" the spec prescribes. -/
theorem parse_directory_truncates_path_at_failing_input :
    parse_directory [1, 0, 0, 0, 12, 0, 0, 0, 0, 0, 0, 0, 0, 0, 0, 0, 97, 98, 0] =
        Except.ok ["a"] ∧ (["a"] : List String) ≠ ["ab"] := by
  constructor <;> decide

/-- C4 (code at the failing input): on a well-formed two-entry directory
whose string table holds the null-terminated strings "ab" (at declared
offset 24) and "c" (at declared offset 27), the source returns
`["a", "c"]` — the first byte of each string — not `["ab", "c"]`. -/
theorem parse_directory_two_entries_at_failing_input :
    parse_directory [2, 0, 0, 0, 24, 0, 0, 0, 0, 0, 0, 0, 0, 0, 0, 0, 27, 0, 0, 0,
        0, 0, 0, 0, 0, 0, 0, 0, 97, 98, 0, 99, 0] = Except.ok ["a", "c"] ∧
      (["a", "c"] : List String) ≠ ["ab", "c"] := by
  constructor <;> decide

/-- C9: a directory buffer that is exactly the 4-byte little-endian entry
count 0, with no entry records or string table following, parses to the
empty path sequence, not an error. -/
theorem parse_directory_zero_entries (dcmp : List Nat) (hlen : dcmp.length = 4)
    (hcount : leU32 dcmp 0 = 0) : parse_directory dcmp = Except.ok [] := by
  unfold parse_directory
  rw [if_pos (by omega), hcount]
  rfl

/-- C9 witness: the all-zero 4-byte buffer. -/
theorem parse_directory_zero_entries_witness :
    List.length [0, 0, 0, 0] = 4 ∧ leU32 [0, 0, 0, 0] 0 = 0 ∧
      parse_directory [0, 0, 0, 0] = Except.ok [] :=
  ⟨rfl, by decide, parse_directory_zero_entries [0, 0, 0, 0] rfl (by decide)⟩

lemma readEntries_overrun (body : List Nat) :
    ∀ n i, 1 ≤ n → body.length < i + 12 * n →
      readEntries body n i = Except.error DecodeError.formatError := by
  intro n
  induction n with
  | zero => intro i h1 _; omega
  | succ m ih =>
    intro i _ hlen
    by_cases hc : i + 12 ≤ body.length
    · have hm : 1 ≤ m := by omega
      simp only [readEntries, if_pos hc, ih (i + 12) hm (by omega)]
    · simp only [readEntries, if_neg hc]

lemma readEntries_error_eq (body : List Nat) :
    ∀ n i err, readEntries body n i = Except.error err → err = DecodeError.formatError := by
  intro n
  induction n with
  | zero => intro i err h; exact Except.noConfusion h
  | succ m ih =>
    intro i err h
    by_cases hc : i + 12 ≤ body.length
    · cases hrec : readEntries body m (i + 12) with
      | error e2 =>
        have he2 := ih (i + 12) e2 hrec
        simp only [readEntries, if_pos hc, hrec] at h
        injection h with h3
        exact h3 ▸ he2
      | ok rest =>
        simp only [readEntries, if_pos hc, hrec] at h
        exact Except.noConfusion h
    · simp only [readEntries, if_neg hc] at h
      injection h with h3
      exact h3.symm

lemma readEntries_ok_mem (body : List Nat) :
    ∀ n i entries, readEntries body n i = Except.ok entries →
      ∀ j, j < n →
        (⟨leU32 body (i + 12 * j), leU32 body (i + 12 * j + 4),
          leU32 body (i + 12 * j + 8)⟩ : Entry) ∈ entries := by
  intro n
  induction n with
  | zero => intro i entries _ j hj; omega
  | succ m ih =>
    intro i entries h j hj
    by_cases hc : i + 12 ≤ body.length
    · cases hrec : readEntries body m (i + 12) with
      | error e2 =>
        simp only [readEntries, if_pos hc, hrec] at h
        exact Except.noConfusion h
      | ok rest =>
        simp only [readEntries, if_pos hc, hrec] at h
        injection h with h3
        subst h3
        cases j with
        | zero =>
          simp only [Nat.mul_zero, Nat.add_zero]
          exact List.mem_cons_self _ _
        | succ k =>
          have hk := ih (i + 12) rest hrec k (by omega)
          have harith : i + 12 + 12 * k = i + 12 * (k + 1) := by ring
          rw [harith] at hk
          exact List.mem_cons_of_mem _ hk
    · simp only [readEntries, if_neg hc] at h
      exact Except.noConfusion h

lemma readPath_overrun (body : List Nat) (e : Entry)
    (h : body.length ≤ e.path_offset) :
    readPath body e = Except.error DecodeError.formatError := by
  unfold readPath
  rw [if_neg (by omega)]

lemma readPath_error_eq (body : List Nat) (e : Entry) (err : DecodeError)
    (h : readPath body e = Except.error err) : err = DecodeError.formatError := by
  simp only [readPath] at h
  by_cases h1 : e.path_offset + 1 ≤ body.length
  · rw [if_pos h1] at h
    by_cases h2 : body.getD e.path_offset 0 < 128
    · rw [if_pos h2] at h
      exact Except.noConfusion h
    · rw [if_neg h2] at h
      injection h with h3
      exact h3.symm
  · rw [if_neg h1] at h
    injection h with h3
    exact h3.symm

lemma readPath_ok_len (body : List Nat) (e : Entry) (s : String)
    (h : readPath body e = Except.ok s) : s.length = 1 := by
  simp only [readPath] at h
  by_cases h1 : e.path_offset + 1 ≤ body.length
  · rw [if_pos h1] at h
    by_cases h2 : body.getD e.path_offset 0 < 128
    · rw [if_pos h2] at h
      injection h with h3
      subst h3
      rfl
    · rw [if_neg h2] at h
      exact Except.noConfusion h
  · rw [if_neg h1] at h
    exact Except.noConfusion h

lemma readPaths_error (body : List Nat) :
    ∀ entries e, e ∈ entries →
      readPath body e = Except.error DecodeError.formatError →
      readPaths body entries = Except.error DecodeError.formatError := by
  intro entries
  induction entries with
  | nil => intro e he _; cases he
  | cons a rest ih =>
    intro e he herr
    rcases List.mem_cons.mp he with rfl | hmem
    · simp only [readPaths, herr]
    · cases hra : readPath body a with
      | error e2 =>
        have he2 := readPath_error_eq body a e2 hra
        simp only [readPaths, hra, he2]
      | ok s =>
        simp only [readPaths, hra, ih e hmem herr]

lemma readPaths_ok_len (body : List Nat) :
    ∀ entries ps, readPaths body entries = Except.ok ps →
      ∀ p ∈ ps, p.length = 1 := by
  intro entries
  induction entries with
  | nil =>
    intro ps h p hp
    injection h with h3
    subst h3
    cases hp
  | cons a rest ih =>
    intro ps h p hp
    cases hra : readPath body a with
    | error e2 =>
      simp only [readPaths, hra] at h
      exact Except.noConfusion h
    | ok s =>
      cases hrp : readPaths body rest with
      | error e2 =>
        simp only [readPaths, hra, hrp] at h
        exact Except.noConfusion h
      | ok ss =>
        simp only [readPaths, hra, hrp] at h
        injection h with h3
        subst h3
        rcases List.mem_cons.mp hp with rfl | hmem
        · exact readPath_ok_len body a p hra
        · exact ih ss hrp p hmem

/-- C8: the directory parser fails with `FormatError` — never reading past
the end — whenever the buffer is shorter than 4 bytes, or the entry count
implies an entry-table size exceeding the post-count body, or some parsed
entry's one-byte string read at `path_offset` would fall past the end of the
body. -/
theorem parse_directory_format_errors (dcmp : List Nat)
    (h : dcmp.length < 4 ∨
      (4 ≤ dcmp.length ∧ (dcmp.drop 4).length < 12 * leU32 dcmp 0) ∨
      (4 ≤ dcmp.length ∧ ∃ j, j < leU32 dcmp 0 ∧
        (dcmp.drop 4).length ≤ leU32 (dcmp.drop 4) (12 * j))) :
    parse_directory dcmp = Except.error DecodeError.formatError := by
  rcases h with hA | ⟨h4, hB⟩ | ⟨h4, j, hj, hC⟩
  · unfold parse_directory
    rw [if_neg (by omega)]
  · unfold parse_directory
    rw [if_pos h4]
    have hn : 1 ≤ leU32 dcmp 0 := by omega
    rw [readEntries_overrun (dcmp.drop 4) (leU32 dcmp 0) 0 hn (by omega)]
  · unfold parse_directory
    rw [if_pos h4]
    cases hre : readEntries (dcmp.drop 4) (leU32 dcmp 0) 0 with
    | error err =>
      simp only [readEntries_error_eq (dcmp.drop 4) (leU32 dcmp 0) 0 err hre]
    | ok entries =>
      show readPaths (dcmp.drop 4) entries = Except.error DecodeError.formatError
      have hmem := readEntries_ok_mem (dcmp.drop 4) (leU32 dcmp 0) 0 entries hre j hj
      refine readPaths_error (dcmp.drop 4) entries _ hmem (readPath_overrun _ _ ?_)
      simpa using hC

/-- C8 witness: a 3-byte buffer is shorter than 4 bytes and is rejected with
`FormatError`. -/
theorem parse_directory_format_errors_witness :
    List.length [1, 0, 0] < 4 ∧
      parse_directory [1, 0, 0] = Except.error DecodeError.formatError :=
  ⟨by decide, parse_directory_format_errors [1, 0, 0] (Or.inl (by decide))⟩

/-- C10: as implemented, each successfully resolved path is the single byte
read at `body[path_offset]` (format `'s'`), so every path string in a
successful parse has length exactly one character; and path resolution fails
(`UnicodeDecodeError`, a `FormatError`) whenever that byte is 0x80 or above,
since a lone byte ≥ 0x80 is not valid UTF-8. -/
theorem parse_directory_single_byte_paths :
    (∀ dcmp ps, parse_directory dcmp = Except.ok ps → ∀ p ∈ ps, p.length = 1) ∧
      ∀ body e, 128 ≤ body.getD e.path_offset 0 →
        readPath body e = Except.error DecodeError.formatError := by
  constructor
  · intro dcmp ps hp p hmem
    unfold parse_directory at hp
    by_cases h4 : 4 ≤ dcmp.length
    · rw [if_pos h4] at hp
      cases hre : readEntries (dcmp.drop 4) (leU32 dcmp 0) 0 with
      | error err =>
        rw [hre] at hp
        exact Except.noConfusion hp
      | ok entries =>
        rw [hre] at hp
        exact readPaths_ok_len (dcmp.drop 4) entries ps hp p hmem
    · rw [if_neg h4] at hp
      exact Except.noConfusion hp
  · intro body e hb
    simp only [readPath]
    by_cases h1 : e.path_offset + 1 ≤ body.length
    · rw [if_pos h1, if_neg (by omega)]
    · rw [if_neg h1]

/-- C10 witness: a parse that succeeds yields the one-character path "A",
and a lone byte 200 at the path offset makes resolution fail. -/
theorem parse_directory_single_byte_paths_witness :
    String.length "A" = 1 ∧ (128 : Nat) ≤ List.getD [200] 0 0 ∧
      readPath [200] ⟨0, 0, 0⟩ = Except.error DecodeError.formatError :=
  ⟨parse_directory_single_byte_paths.1
      [1, 0, 0, 0, 12, 0, 0, 0, 0, 0, 0, 0, 0, 0, 0, 0, 65] ["A"] (by decide)
      "A" (by decide),
    by decide,
    parse_directory_single_byte_paths.2 [200] ⟨0, 0, 0⟩ (by decide)⟩
